import Mathlib

/-!
Shallow embedding of the geko library (generic keep-order containers and
their JSON codec) and verification of the frozen claims.

Source files embedded: `src/map.go` (the `Map` type with
`DuplicateKeyStrategy`), `src/pair.go`, `src/pairs.go`, `src/pair_list.go`,
`src/list.go`, `src/json.go` and the type-check helpers
(`src/unnamed/part_011`, `src/unnamed/part_012`).

Go's built-in hash map is modelled as an association list with at most one
binding per key (insert replaces in place or appends); lookup, delete and
length then coincide with the Go map operations.  A `nil` Go map is
distinguished from an empty initialized one with `Option`.  Machine integers
(`int`) never approach overflow in the embedded operations, so they are
modelled as `Nat`/`Int` directly.
-/

namespace Geko

/-- Abbreviation for the core list type; the Go structs below carry a field
named `List`, which shadows the core type inside their namespaces. -/
abbrev CoreList (α : Type) : Type := List α

/-- Pair is the k v pair type of `src/pair.go` (fields `Key`, `Value`). -/
structure Pair (K V : Type) where
  Key : K
  Value : V
deriving DecidableEq, Repr

/-- DuplicateKeyStrategy of `src/map.go`; a Go `uint8` enum, modelled as `Nat`
(the named constants below are `iota` values 0..3, every other value is an
out-of-range strategy that reaches the `default:` case of `Map.Add`). -/
abbrev DuplicateKeyStrategy : Type := Nat

/-- UpdateValueKeepOrder: use new value, keep key order (default). -/
def UpdateValueKeepOrder : DuplicateKeyStrategy := 0

/-- UpdateValueUpdateOrder: use new value, move key to last. -/
def UpdateValueUpdateOrder : DuplicateKeyStrategy := 1

/-- KeepValueUpdateOrder: keep old value, move key to last. -/
def KeepValueUpdateOrder : DuplicateKeyStrategy := 2

/-- Ignore: ignore the whole set operation when key duplicated. -/
def Ignore : DuplicateKeyStrategy := 3

/-- Lookup in the association-list model of a Go hash map. -/
def assocLookup [DecidableEq K] : List (K × V) → K → Option V
  | [], _ => none
  | (k, v) :: rest, key => if k = key then some v else assocLookup rest key

/-- Insert into the association-list model of a Go hash map: replace the
existing binding in place, or append a new binding. -/
def assocInsert [DecidableEq K] : List (K × V) → K → V → List (K × V)
  | [], key, value => [(key, value)]
  | (k, v) :: rest, key, value =>
    if k = key then (k, value) :: rest else (k, v) :: assocInsert rest key value

/-- Delete from the association-list model of a Go hash map. -/
def assocErase [DecidableEq K] : List (K × V) → K → List (K × V)
  | [], _ => []
  | (k, v) :: rest, key => if k = key then rest else (k, v) :: assocErase rest key

/-- Map of `src/map.go`: an insertion-ordered map.  `order` is the `[]K` key
order index (a `nil` slice and an empty one are indistinguishable to every
embedded operation, so both are `[]`); `inner` is the `map[K]V` hash table,
`none` when the Go map is `nil`; `onDuplicateKey` is the strategy field. -/
structure Map (K V : Type) where
  order : List K
  inner : Option (List (K × V))
  onDuplicateKey : DuplicateKeyStrategy
deriving DecidableEq, Repr

namespace Map

variable {K V : Type} [DecidableEq K]

/-- NewMap creates a new empty map (Go zero value: nil slices/maps). -/
def NewMap : Map K V := ⟨[], none, 0⟩

/-- SetDuplicateKeyStrategy sets the strategy field. -/
def SetDuplicateKeyStrategy (m : Map K V) (strategy : DuplicateKeyStrategy) :
    Map K V :=
  { m with onDuplicateKey := strategy }

/-- Get a value by key; Go returns `(v, exist)`, modelled as `Option V`
(lookup on a nil map yields absent). -/
def Get (m : Map K V) (key : K) : Option V :=
  match m.inner with
  | none => none
  | some l => assocLookup l key

/-- Has checks if key is in the map. -/
def Has (m : Map K V) (key : K) : Bool :=
  (m.Get key).isSome

/-- GetOrZeroValue returns the stored value, or the zero value of V. -/
def GetOrZeroValue [Inhabited V] (m : Map K V) (key : K) : V :=
  (m.Get key).getD default

/-- Len returns `len(m.inner)`. -/
def Len (m : Map K V) : Nat :=
  (m.inner.getD []).length

/-- GetKeyByIndex reads `m.order[index]`.  Go panics out of bounds; the model
is total and returns the zero value there (no claim exercises that case). -/
def GetKeyByIndex [Inhabited K] (m : Map K V) (index : Nat) : K :=
  m.order.getD index default

/-- GetByIndex returns the pair at an order index. -/
def GetByIndex [Inhabited K] [Inhabited V] (m : Map K V) (index : Nat) :
    Pair K V :=
  ⟨m.GetKeyByIndex index, m.GetOrZeroValue (m.GetKeyByIndex index)⟩

/-- GetValueByIndex returns the value at an order index. -/
def GetValueByIndex [Inhabited K] [Inhabited V] (m : Map K V) (index : Nat) :
    V :=
  m.GetOrZeroValue (m.GetKeyByIndex index)

/-- Unexported `set` of `src/map.go:310`: initialize the hash table if nil,
append the key to the order index unless `alreadyExist`, store the value. -/
def set (m : Map K V) (key : K) (value : V) (alreadyExist : Bool) : Map K V :=
  { m with
    order := if alreadyExist then m.order else m.order ++ [key]
    inner := some (assocInsert (m.inner.getD []) key value) }

/-- Set a value by key without changing its order, or place it at the end if
the key does not exist (`src/map.go:327`). -/
def Set (m : Map K V) (key : K) (value : V) : Map K V :=
  m.set key value (m.Has key)

/-- DeleteByIndex removes the entry at an order index from both structures
(`src/map.go:401`).  Go panics out of bounds; the model returns the map
unchanged there (claims only use in-bounds indices). -/
def DeleteByIndex (m : Map K V) (index : Nat) : Map K V :=
  match m.order[index]? with
  | none => m
  | some key =>
    { m with
      order := m.order.eraseIdx index
      inner := m.inner.map (fun l => assocErase l key) }

/-- Delete an item by key (`src/map.go:382`): no-op when absent, otherwise
remove the first matching order entry and the hash-table binding. -/
def Delete (m : Map K V) (key : K) : Map K V :=
  if m.Has key then
    match m.order.findIdx? (fun k => k = key) with
    | some i => m.DeleteByIndex i
    | none => m
  else m

/-- Add a key value pair (`src/map.go:335`).  The `switch m.onDuplicateKey`
has an empty `default:` clause, so any strategy outside 0..3 leaves
`alreadyExist` false. -/
def Add (m : Map K V) (key : K) (value : V) : Map K V :=
  if m.onDuplicateKey = UpdateValueKeepOrder then
    m.set key value (m.Has key)
  else if m.onDuplicateKey = UpdateValueUpdateOrder then
    (m.Delete key).set key value false
  else if m.onDuplicateKey = KeepValueUpdateOrder then
    match m.Get key with
    | some oldValue => ((m.Delete key).set key oldValue false)
    | none => m.set key value false
  else if m.onDuplicateKey = Ignore then
    if m.Has key then m else m.set key value false
  else
    m.set key value false

/-- Append a series of kv pairs: repeated `Add` (`src/map.go:373`). -/
def Append (m : Map K V) (pairs : List (Pair K V)) : Map K V :=
  pairs.foldl (fun acc p => acc.Add p.Key p.Value) m

/-- Clear drops both structures to nil (`src/map.go:408`). -/
def Clear (m : Map K V) : Map K V :=
  { m with order := [], inner := none }

/-- Keys returns a copy of the key order: `make([]K, Len())` then
`copy(keys, m.order)`, i.e. position `i < Len()` holds `order[i]` when it
exists and the zero key otherwise (`src/map.go:422`). -/
def Keys [Inhabited K] (m : Map K V) : List K :=
  (List.range m.Len).map (fun i => m.order.getD i default)

/-- Values returns the values in current order (`src/map.go:433`). -/
def Values [Inhabited K] [Inhabited V] (m : Map K V) : List V :=
  (List.range m.Len).map (fun i => m.GetValueByIndex i)

end Map

/-- Pairs of `src/pairs.go`: a wrapper of `[]Pair[K, V]` that keeps every
entry, duplicates included.  The single field is named `List` as in Go. -/
structure Pairs (K V : Type) where
  List : List (Pair K V)
deriving DecidableEq, Repr

namespace Pairs

variable {K V : Type} [DecidableEq K]

/-- NewPairs creates a new empty list (`NewPairsFrom(nil)`). -/
def NewPairs : Pairs K V := ⟨[]⟩

/-- Add a key value pair to the end of the list (`src/pairs.go:157`). -/
def Add (ps : Pairs K V) (key : K) (value : V) : Pairs K V :=
  ⟨ps.List ++ [⟨key, value⟩]⟩

/-- Has checks if a key exists in the list (`src/pairs.go:63`). -/
def Has (ps : Pairs K V) (key : K) : Bool :=
  ps.List.any (fun p => p.Key = key)

/-- Count returns the number of entries with the key (`src/pairs.go:76`). -/
def Count (ps : Pairs K V) (key : K) : Nat :=
  (ps.List.filter (fun p => p.Key = key)).length

/-- Len returns the size of the list. -/
def Len (ps : Pairs K V) : Nat :=
  ps.List.length

/-- Filter keeps exactly the entries satisfying the predicate, in order
(`src/pairs.go:240`, an in-place compaction loop writing survivors to the
front and truncating, functionally `List.filter`). -/
def Filter (ps : Pairs K V) (pred : Pair K V → Bool) : Pairs K V :=
  ⟨ps.List.filter pred⟩

/-- Delete all items whose key equals the given one (`src/pairs.go:169`,
`Filter` with `p.Key != key`). -/
def Delete (ps : Pairs K V) (key : K) : Pairs K V :=
  ps.Filter (fun p => decide (p.Key ≠ key))

end Pairs

/-- Keys of all entries in order (`src/pairs.go:195`). -/
def Pairs.Keys {K V : Type} (ps : Pairs K V) : CoreList K :=
  ps.List.map (fun p => p.Key)

/-- Values of all entries in order (`src/pairs.go:206`). -/
def Pairs.Values {K V : Type} (ps : Pairs K V) : CoreList V :=
  ps.List.map (fun p => p.Value)

/-- PairList of `src/pair_list.go`: the predecessor of `Pairs`, same data. -/
structure PairList (K V : Type) where
  List : List (Pair K V)
deriving DecidableEq, Repr

namespace PairList

variable {K V : Type} [DecidableEq K]

/-- NewPairList creates a new empty list (`NewPairListFrom(nil)`). -/
def NewPairList : PairList K V := ⟨[]⟩

/-- Add appends a pair (`src/pair_list.go:114`). -/
def Add (pl : PairList K V) (key : K) (value : V) : PairList K V :=
  ⟨pl.List ++ [⟨key, value⟩]⟩

/-- Filter keeps exactly the entries satisfying the predicate, in order
(`src/pair_list.go:176`, the same compaction loop as `Pairs.Filter`). -/
def Filter (pl : PairList K V) (pred : Pair K V → Bool) : PairList K V :=
  ⟨pl.List.filter pred⟩

/-- Delete of `src/pair_list.go:122`: `Filter` with the predicate
`p.Key == key` exactly as written in the source. -/
def Delete (pl : PairList K V) (key : K) : PairList K V :=
  pl.Filter (fun p => decide (p.Key = key))

/-- Len returns the size of the list. -/
def Len (pl : PairList K V) : Nat :=
  pl.List.length

end PairList

/-- Pairs materializes the full map content in current order
(`src/map.go:445`, returns a `*PairList[K, V]`). -/
def Map.Pairs {K V : Type} [DecidableEq K] [Inhabited K] [Inhabited V]
    (m : Map K V) : PairList K V :=
  ⟨(List.range m.Len).map (fun i => m.GetByIndex i)⟩

/-- GoList models the `List` type of `src/list.go` (a slice wrapper); named
`GoList` here only because `List` would shadow the Lean core type. -/
structure GoList (T : Type) where
  List : List T
deriving DecidableEq, Repr

-- ===== JSON codec (src/json.go) =====

/-- Str models Go `string` values (JSON strings and object keys) as
character lists. -/
abbrev Str : Type := List Char

/-- JsonValue is the closed set of dynamic values the decoder produces
(`src/json.go:120`): bool, number, string, null, `*Map[string, any]`,
`*Pairs[string, any]`, `*List[any]`.  Numbers are modelled as integers: the
embedded inputs only contain integral JSON numbers, for which Go's `float64`
decoding and re-encoding coincide with integer round-tripping. -/
inductive JsonValue where
  | jnull : JsonValue
  | jbool : Bool → JsonValue
  | jnum : Int → JsonValue
  | jstr : Str → JsonValue
  | jmap : Map Str JsonValue → JsonValue
  | jpairs : Pairs Str JsonValue → JsonValue
  | jarr : GoList JsonValue → JsonValue

/-- The zero value of the Go `any` interface is nil, which encodes as JSON
null; it is the default used by `GetOrZeroValue` on dynamic maps. -/
instance : Inhabited JsonValue := ⟨.jnull⟩

/-- JToken models the typed tokens of the standard pull tokenizer.
Modelled from the spec: begin/end-object, begin/end-array, string, number,
bool, null. -/
inductive JToken where
  | lbrace : JToken
  | rbrace : JToken
  | lbrack : JToken
  | rbrack : JToken
  | tstr : Str → JToken
  | tnum : Int → JToken
  | tbool : Bool → JToken
  | tnull : JToken
deriving DecidableEq, Repr

/-- DecodeError covers the decoder's error taxonomy: syntax errors carry a
message and byte offset (`newSyntaxError` of `src/json.go:95`), type errors
model `json.UnmarshalTypeError`. -/
inductive DecodeError where
  | syntaxErr : String → Nat → DecodeError
  | typeErr : String → DecodeError
deriving DecidableEq, Repr

/-- Decode options of `src/json.go:25`: `usePairs` selects
`*Pairs[string, any]` for JSON objects, `strategy` is the duplicate-key
strategy given to created maps.  (`useNumber` is omitted: numbers are
modelled as integer tokens either way.) -/
structure DecodeOptions where
  usePairs : Bool
  strategy : DuplicateKeyStrategy
deriving DecidableEq, Repr

/-- Whitespace per RFC 8259. -/
def isWsChar (c : Char) : Bool :=
  c == ' ' || c == '\t' || c == '\n' || c == '\r'

/-- Skip leading whitespace. -/
def skipWs (s : Str) : Str :=
  s.dropWhile isWsChar

/-- Characters the modelled tokenizer passes over between tokens:
whitespace plus the structural separators `,` and `:`, which the standard
tokenizer consumes (and validates) internally. -/
def isSepChar (c : Char) : Bool :=
  isWsChar c || c == ',' || c == ':'

/-- Decimal digit run to a number. -/
def digitsToNat (ds : Str) : Nat :=
  ds.foldl (fun acc c => 10 * acc + (c.toNat - 48)) 0

/-- Modelled from the spec: the underlying standard JSON lexer exposing a
pull-based token stream (`d.decoder.Token()`).  `none` is end of input or a
lexing failure; grammar validation of separators is the standard lexer's
responsibility and is modelled liberally (separators are skipped), which
only widens the set of accepted inputs.  Strings are modelled without
escape sequences and numbers as optionally signed digit runs: every input
the claims exercise lies in this fragment. -/
def nextToken (s : Str) : Option (JToken × Str) :=
  match s.dropWhile isSepChar with
  | [] => none
  | '{' :: r => some (.lbrace, r)
  | '}' :: r => some (.rbrace, r)
  | '[' :: r => some (.lbrack, r)
  | ']' :: r => some (.rbrack, r)
  | '"' :: r =>
    match r.dropWhile (fun c => !(c == '"')) with
    | _ :: r2 => some (.tstr (r.takeWhile (fun c => !(c == '"'))), r2)
    | [] => none
  | 't' :: 'r' :: 'u' :: 'e' :: r => some (.tbool true, r)
  | 'f' :: 'a' :: 'l' :: 's' :: 'e' :: r => some (.tbool false, r)
  | 'n' :: 'u' :: 'l' :: 'l' :: r => some (.tnull, r)
  | '-' :: r =>
    match r.takeWhile Char.isDigit with
    | [] => none
    | ds => some (.tnum (-(Int.ofNat (digitsToNat ds))), r.dropWhile Char.isDigit)
  | c :: r =>
    if c.isDigit then
      some (.tnum (Int.ofNat (digitsToNat ((c :: r).takeWhile Char.isDigit))),
        (c :: r).dropWhile Char.isDigit)
    else none

mutual

/-- decoder.next of `src/json.go:109`: read one token and dispatch.  The
fuel argument bounds recursion depth; the top-level entry supplies more fuel
than any input of that length can consume. -/
def parseNext (opts : DecodeOptions) : Nat → Str →
    Except DecodeError (JsonValue × Str)
  | 0, _ => .error (.syntaxErr "nesting exceeds input length" 0)
  | fuel + 1, s =>
    match nextToken s with
    | none => .error (.syntaxErr "unexpected end of JSON input" 0)
    | some (tok, r) => nextAfterToken opts fuel tok r

/-- decoder.nextAfterToken of `src/json.go:120`: scalars are returned
directly; `{` builds a `*Pairs[string, any]` or a `*Map[string, any]`
configured with the option strategy and populates it; `[` builds a
`*List[any]`.  A close delimiter in value position is a stream the standard
tokenizer would already have rejected, modelled as a syntax error. -/
def nextAfterToken (opts : DecodeOptions) : Nat → JToken → Str →
    Except DecodeError (JsonValue × Str)
  | 0, _, _ => .error (.syntaxErr "nesting exceeds input length" 0)
  | fuel + 1, tok, r =>
    match tok with
    | .tbool b => .ok (.jbool b, r)
    | .tnum n => .ok (.jnum n, r)
    | .tstr cs => .ok (.jstr cs, r)
    | .tnull => .ok (.jnull, r)
    | .lbrace =>
      if opts.usePairs then
        match parseIntoObjectPairs opts fuel Pairs.NewPairs r with
        | .ok (ps, r2) => .ok (.jpairs ps, r2)
        | .error e => .error e
      else
        match parseIntoObjectMap opts fuel
            (Map.NewMap.SetDuplicateKeyStrategy opts.strategy) r with
        | .ok (m, r2) => .ok (.jmap m, r2)
        | .error e => .error e
    | .lbrack =>
      match parseIntoArray opts fuel [] r with
      | .ok (xs, r2) => .ok (.jarr ⟨xs⟩, r2)
      | .error e => .error e
    | .rbrace => .error (.syntaxErr "unexpected delimiter" 0)
    | .rbrack => .error (.syntaxErr "unexpected delimiter" 0)

/-- parseIntoObject of `src/json.go:268` at a `*Map[string, any]` target:
loop reading a key token, recursively decoding the value, and inserting via
the container's `Add`, until the closing brace.  A non-string key token is a
stream the standard tokenizer rejects. -/
def parseIntoObjectMap (opts : DecodeOptions) : Nat → Map Str JsonValue →
    Str → Except DecodeError (Map Str JsonValue × Str)
  | 0, _, _ => .error (.syntaxErr "nesting exceeds input length" 0)
  | fuel + 1, m, s =>
    match nextToken s with
    | none => .error (.syntaxErr "unexpected end of JSON input" 0)
    | some (.rbrace, r) => .ok (m, r)
    | some (.tstr k, r) =>
      match parseNext opts fuel r with
      | .error e => .error e
      | .ok (v, r2) => parseIntoObjectMap opts fuel (m.Add k v) r2
    | some (_, _) => .error (.syntaxErr "invalid object key" 0)

/-- parseIntoObject of `src/json.go:268` at a `*Pairs[string, any]` target:
identical loop, inserting via `Pairs.Add` (unconditional append). -/
def parseIntoObjectPairs (opts : DecodeOptions) : Nat → Pairs Str JsonValue →
    Str → Except DecodeError (Pairs Str JsonValue × Str)
  | 0, _, _ => .error (.syntaxErr "nesting exceeds input length" 0)
  | fuel + 1, ps, s =>
    match nextToken s with
    | none => .error (.syntaxErr "unexpected end of JSON input" 0)
    | some (.rbrace, r) => .ok (ps, r)
    | some (.tstr k, r) =>
      match parseNext opts fuel r with
      | .error e => .error e
      | .ok (v, r2) => parseIntoObjectPairs opts fuel (ps.Add k v) r2
    | some (_, _) => .error (.syntaxErr "invalid object key" 0)

/-- parseIntoArray of `src/json.go:176`: loop reading a token; `]` ends the
array, otherwise the token starts an element decoded by `nextAfterToken` and
appended.  The accumulator starts at `[]` at every call site, mirroring the
`*array.innerSlice() = nil` reset at the top of the Go function. -/
def parseIntoArray (opts : DecodeOptions) : Nat → List JsonValue → Str →
    Except DecodeError (List JsonValue × Str)
  | 0, _, _ => .error (.syntaxErr "nesting exceeds input length" 0)
  | fuel + 1, acc, s =>
    match nextToken s with
    | none => .error (.syntaxErr "unexpected end of JSON input" 0)
    | some (.rbrack, r) => .ok (acc, r)
    | some (tok, r) =>
      match nextAfterToken opts fuel tok r with
      | .error e => .error e
      | .ok (v, r2) => parseIntoArray opts fuel (acc ++ [v]) r2

end

/-- Fuel that always suffices: every recursive step of the decoder either
consumes at least one input character or is one of the two stages
(`parseNext` then `nextAfterToken`) of a single token. -/
def decodeFuel (s : Str) : Nat :=
  2 * s.length + 2

/-- decoder.decode of `src/json.go:77`: decode one top-level value, then
confirm no trailing content: the Go code calls `d.decoder.Token()` once more
and demands `io.EOF`, which holds exactly when only whitespace remains; any
other outcome becomes a syntax error with the message below and the byte
offset of the decoder (one past the first trailing non-whitespace byte,
modelling `InputOffset()`). -/
def decode (opts : DecodeOptions) (s : Str) : Except DecodeError JsonValue :=
  match parseNext opts (decodeFuel s) s with
  | .error e => .error e
  | .ok (item, rest) =>
    if (skipWs rest).isEmpty then .ok item
    else
      .error (.syntaxErr "invalid character after top-level value"
        (s.length - (skipWs rest).length + 1))

/-- JSONUnmarshal of `src/json.go:21`. -/
def JSONUnmarshal (s : Str) (opts : DecodeOptions) :
    Except DecodeError JsonValue :=
  decode opts s

/-- Map.UnmarshalJSON (`src/map.go:494` via unmarshalObject of
`src/json.go:309`): for a string key type the check `isString[K]` passes;
the first token must open an object, then the object body is parsed into
the EXISTING map (`parseIntoObject` does not clear it), with the map's own
duplicate-key strategy as decode option. -/
def unmarshalObjectMap (m : Map Str JsonValue) (s : Str) :
    Except DecodeError (Map Str JsonValue) :=
  match nextToken s with
  | none => .error (.syntaxErr "unexpected end of JSON input" 0)
  | some (.lbrace, r) =>
    (parseIntoObjectMap ⟨false, m.onDuplicateKey⟩ (decodeFuel s) m r).map
      (fun p => p.1)
  | some (_, _) => .error (.typeErr "non-object value")

/-- Pairs.UnmarshalJSON (`src/pairs.go:259` via unmarshalObject): the object
body is parsed into the EXISTING pair sequence by unconditional `Add`. -/
def unmarshalObjectPairs (ps : Pairs Str JsonValue) (s : Str) :
    Except DecodeError (Pairs Str JsonValue) :=
  match nextToken s with
  | none => .error (.syntaxErr "unexpected end of JSON input" 0)
  | some (.lbrace, r) =>
    (parseIntoObjectPairs ⟨true, 0⟩ (decodeFuel s) ps r).map (fun p => p.1)
  | some (_, _) => .error (.typeErr "non-object value")

/-- List.UnmarshalJSON (via unmarshalArray of `src/json.go:203` and
parseIntoArray): the first token must open an array, and parsing starts
from the empty slice (`*array.innerSlice() = nil`), discarding every
existing element of the receiver. -/
def GoList.UnmarshalJSON (l : GoList JsonValue) (s : Str) :
    Except DecodeError (GoList JsonValue) :=
  match nextToken s with
  | none => .error (.syntaxErr "unexpected end of JSON input" 0)
  | some (.lbrack, r) =>
    (parseIntoArray ⟨false, 0⟩ (decodeFuel s) [] r).map
      (fun p => GoList.mk p.1)
  | some (_, _) => .error (.typeErr "non-array value")

/-- Member sequence of a JSON object body, in source order: the same loop as
`parseIntoObject` (key token, value via `parseNext`, until the closing
brace) but collecting the members instead of inserting them into a
container; used to state how the decoded members relate to a container's
prior content. -/
def parseMembers (opts : DecodeOptions) : Nat → Str →
    Except DecodeError (List (Pair Str JsonValue) × Str)
  | 0, _ => .error (.syntaxErr "nesting exceeds input length" 0)
  | fuel + 1, s =>
    match nextToken s with
    | none => .error (.syntaxErr "unexpected end of JSON input" 0)
    | some (.rbrace, r) => .ok ([], r)
    | some (.tstr k, r) =>
      match parseNext opts fuel r with
      | .error e => .error e
      | .ok (v, r2) =>
        match parseMembers opts fuel r2 with
        | .error e => .error e
        | .ok (ms, r3) => .ok (⟨k, v⟩ :: ms, r3)
    | some (_, _) => .error (.syntaxErr "invalid object key" 0)

-- ===== Encoder and runtime type model =====

/-- GoKind models `reflect.Kind` for the kinds the claims exercise.
Modelled from the spec: reflection-driven runtime type inspection. -/
inductive GoKind where
  | stringKind : GoKind
  | intKind : GoKind
  | boolKind : GoKind
  | ptrKind : GoKind
  | structKind : GoKind
deriving DecidableEq, Repr

/-- GoType models a `reflect.Type` descriptor: two Go types are identical
exactly when name and kind agree, while a named type such as
`type myString string` shares the kind of its underlying type but not its
identity.  Modelled from the spec. -/
structure GoType where
  name : String
  kind : GoKind
deriving DecidableEq, Repr

/-- The descriptor of the built-in string type, `reflect.TypeOf("")`. -/
def goStringType : GoType :=
  ⟨"string", .stringKind⟩

/-- isString of `src/unnamed/part_012:12`:
`reflect.TypeOf(checker) == reflect.TypeOf("")`, i.e. identity with the
built-in string type; `none` models the nil `reflect.Type` of an interface
type parameter. -/
def isString (t : Option GoType) : Bool :=
  decide (t = some goStringType)

/-- underlyingIsString of `src/unnamed/part_011:12`:
`checkerTyp != nil && checkerTyp.Kind() == reflect.String`. -/
def underlyingIsString (t : Option GoType) : Bool :=
  match t with
  | none => false
  | some ty => decide (ty.kind = GoKind.stringKind)

/-- EncodeError: `json.UnsupportedTypeError` for a non-string key type. -/
inductive EncodeError where
  | unsupportedTypeError : EncodeError
deriving DecidableEq, Repr

/-- Standard encoding of a JSON string.  The embedded inputs contain no
characters needing escapes (and `SetEscapeHTML(false)` is set), so the
content is emitted verbatim between quotes. -/
def encStr (s : Str) : Str :=
  '"' :: (s ++ ['"'])

/-- Standard encoding of an integral number (Go prints `float64` values
that are mathematical integers without a fractional part). -/
def intChars (n : Int) : Str :=
  if n < 0 then '-' :: Nat.toDigits 10 n.natAbs else Nat.toDigits 10 n.natAbs

/-- Compaction loop: drop whitespace outside string literals. -/
def compactAux : Bool → Str → Str
  | _, [] => []
  | inStr, c :: rest =>
    if c == '"' then c :: compactAux (!inStr) rest
    else if !inStr && isWsChar c then compactAux inStr rest
    else c :: compactAux inStr rest

/-- Modelled from the spec: `json.Marshal` validates and compacts the bytes
a custom `MarshalJSON` returns, removing insignificant whitespace (such as
the newline `json.Encoder.Encode` appends after every value). -/
def compact (s : Str) : Str :=
  compactAux false s

/-- Keys the marshalObject loop visits on a map: `GetKeyByIndex i` for
`0 ≤ i < Len()` (the zero string when the order index is shorter). -/
def mapItemKeys (m : Map Str JsonValue) : List Str :=
  (List.range m.Len).map (fun i => m.order.getD i [])

/-- Every list has positive structural size. -/
theorem one_le_sizeOf_list {α : Type} [SizeOf α] (l : List α) :
    1 ≤ sizeOf l := by
  cases l <;> simp_arith

/-- A value found in the hash table is structurally smaller than the
table (termination of the encoder's recursion through lookups). -/
theorem sizeOf_assocLookup_lt {l : List (Str × JsonValue)} {k : Str}
    {v : JsonValue} (h : assocLookup l k = some v) : sizeOf v < sizeOf l := by
  induction l with
  | nil => simp [assocLookup] at h
  | cons p rest ih =>
    obtain ⟨k1, v1⟩ := p
    rw [assocLookup] at h
    by_cases hk : k1 = k
    · simp only [hk, if_pos rfl] at h
      cases h
      simp only [List.cons.sizeOf_spec, Prod.mk.sizeOf_spec]
      omega
    · simp only [if_neg hk] at h
      have := ih h
      simp only [List.cons.sizeOf_spec]
      omega

/-- The value the encoder reads at a key is structurally smaller than the
whole map. -/
theorem sizeOf_getOrZeroValue_lt (m : Map Str JsonValue) (k : Str) :
    sizeOf (m.GetOrZeroValue k) < sizeOf m := by
  obtain ⟨o, i, st⟩ := m
  simp only [Map.GetOrZeroValue, Map.Get, Map.mk.sizeOf_spec]
  cases i with
  | none =>
    simp only [Option.getD]
    have h1 : sizeOf (default : JsonValue) = 1 := rfl
    have h2 : 1 ≤ sizeOf o := one_le_sizeOf_list o
    omega
  | some l =>
    cases hl : assocLookup l k with
    | none =>
      simp only [hl, Option.getD]
      have h1 : sizeOf (default : JsonValue) = 1 := rfl
      have h2 : 1 ≤ sizeOf o := one_le_sizeOf_list o
      have h3 : 1 ≤ sizeOf l := one_le_sizeOf_list l
      simp only [Option.some.sizeOf_spec]
      omega
    | some v =>
      have := sizeOf_assocLookup_lt hl
      simp only [hl, Option.getD, Option.some.sizeOf_spec]
      have h2 : 1 ≤ sizeOf o := one_le_sizeOf_list o
      omega

mutual

/-- Bytes `json.Marshal` produces for a dynamic value (what
`enc.Encode(pair.Value)` writes, minus its trailing newline): scalars are
standard; a nested `*Map`/`*Pairs` goes through its `MarshalJSON`
(`marshalObject`, `src/json.go:233`) whose output the standard encoder
compacts; a nested `*List` through `marshalArray` (`src/json.go:163`). -/
def encValue : JsonValue → Str
  | .jnull => ['n', 'u', 'l', 'l']
  | .jbool true => ['t', 'r', 'u', 'e']
  | .jbool false => ['f', 'a', 'l', 's', 'e']
  | .jnum n => intChars n
  | .jstr s => encStr s
  | .jmap m =>
    compact ('{' :: (List.intercalate [','] (encMapItems m (mapItemKeys m))
      ++ ['}']))
  | .jpairs ps =>
    compact ('{' :: (List.intercalate [','] (encPairChunks ps.List) ++ ['}']))
  | .jarr l => '[' :: (List.intercalate [','] (encArrChunks l.List) ++ [']'])
termination_by v => (sizeOf v, 0)
decreasing_by
  · apply Prod.Lex.left
    simp only [JsonValue.jmap.sizeOf_spec]
    omega
  · apply Prod.Lex.left
    obtain ⟨pl⟩ := ps
    show sizeOf pl < sizeOf (JsonValue.jpairs ⟨pl⟩)
    simp only [JsonValue.jpairs.sizeOf_spec, Pairs.mk.sizeOf_spec]
    omega
  · apply Prod.Lex.left
    obtain ⟨ll⟩ := l
    show sizeOf ll < sizeOf (JsonValue.jarr ⟨ll⟩)
    simp only [JsonValue.jarr.sizeOf_spec, GoList.mk.sizeOf_spec]
    omega

/-- One `i > 0 → ','` separated chunk per visited key of a map, each being
`enc.Encode(key)` (raw JSON string plus the encoder's newline), a colon, and
`enc.Encode(value)` (raw value plus newline), exactly the bytes the loop of
`marshalObject` writes. -/
def encMapItems (m : Map Str JsonValue) : List Str → List Str
  | [] => []
  | k :: rest =>
    (encStr k ++ '\n' :: ':' :: (encValue (m.GetOrZeroValue k) ++ ['\n']))
      :: encMapItems m rest
termination_by keys => (sizeOf m, sizeOf keys)
decreasing_by
  · apply Prod.Lex.left
    exact sizeOf_getOrZeroValue_lt m k
  · apply Prod.Lex.right
    simp only [List.cons.sizeOf_spec]
    omega

/-- The chunks of the `marshalObject` loop over a pair sequence. -/
def encPairChunks : List (Pair Str JsonValue) → List Str
  | [] => []
  | p :: rest =>
    (encStr p.Key ++ '\n' :: ':' :: (encValue p.Value ++ ['\n']))
      :: encPairChunks rest
termination_by l => (sizeOf l, 0)
decreasing_by
  · apply Prod.Lex.left
    obtain ⟨pk, pv⟩ := p
    show sizeOf pv < sizeOf (Pair.mk pk pv :: rest)
    simp only [List.cons.sizeOf_spec, Pair.mk.sizeOf_spec]
    omega
  · apply Prod.Lex.left
    simp only [List.cons.sizeOf_spec]
    omega

/-- Element encodings of an array (the standard encoder writes a slice
compactly, elements comma separated). -/
def encArrChunks : List JsonValue → List Str
  | [] => []
  | v :: rest => encValue v :: encArrChunks rest
termination_by l => (sizeOf l, 0)
decreasing_by
  · apply Prod.Lex.left
    simp only [List.cons.sizeOf_spec]
    omega
  · apply Prod.Lex.left
    simp only [List.cons.sizeOf_spec]
    omega

end

/-- marshalObject of `src/json.go:233` instantiated at a `*Map` receiver:
reject with `json.UnsupportedTypeError` unless `isString[K]`, otherwise
write `{`, the comma-separated key/value chunks of the index-order loop,
and `}` (the raw bytes still contain the newline `Encode` appends after
each key and value). -/
def marshalObjectMap (keyType : Option GoType) (m : Map Str JsonValue) :
    Except EncodeError Str :=
  if isString keyType then
    .ok ('{' :: (List.intercalate [','] (encMapItems m (mapItemKeys m))
      ++ ['}']))
  else .error .unsupportedTypeError

/-- marshalObject of `src/json.go:233` instantiated at a `*Pairs` receiver. -/
def marshalObjectPairs (keyType : Option GoType) (ps : Pairs Str JsonValue) :
    Except EncodeError Str :=
  if isString keyType then
    .ok ('{' :: (List.intercalate [','] (encPairChunks ps.List) ++ ['}']))
  else .error .unsupportedTypeError

/-- The public encode entry `json.Marshal` on a decoded dynamic value: the
containers go through their `MarshalJSON` and the standard library compacts
the returned bytes; their key type parameter is the built-in `string`. -/
def jsonMarshalValue (v : JsonValue) : Except EncodeError Str :=
  match v with
  | .jmap m => (marshalObjectMap (some goStringType) m).map compact
  | .jpairs ps => (marshalObjectPairs (some goStringType) ps).map compact
  | v => .ok (encValue v)

-- ===== Claim theorems on the containers =====

/-- C1: on a fresh `Map[string, int]` configured with each of the four
duplicate-key strategies, `Add("a",1); Add("b",2); Add("a",3)` yields exactly
the keys and values of the spec's strategy table, observed via `Keys()` and
`Values()`. -/
theorem C1_strategy_table :
    (((Map.NewMap (K := String) (V := Int)).SetDuplicateKeyStrategy
        UpdateValueKeepOrder |>.Add "a" 1 |>.Add "b" 2 |>.Add "a" 3).Keys
      = ["a", "b"]
    ∧ ((Map.NewMap (K := String) (V := Int)).SetDuplicateKeyStrategy
        UpdateValueKeepOrder |>.Add "a" 1 |>.Add "b" 2 |>.Add "a" 3).Values
      = [3, 2])
    ∧ (((Map.NewMap (K := String) (V := Int)).SetDuplicateKeyStrategy
        UpdateValueUpdateOrder |>.Add "a" 1 |>.Add "b" 2 |>.Add "a" 3).Keys
      = ["b", "a"]
    ∧ ((Map.NewMap (K := String) (V := Int)).SetDuplicateKeyStrategy
        UpdateValueUpdateOrder |>.Add "a" 1 |>.Add "b" 2 |>.Add "a" 3).Values
      = [2, 3])
    ∧ (((Map.NewMap (K := String) (V := Int)).SetDuplicateKeyStrategy
        KeepValueUpdateOrder |>.Add "a" 1 |>.Add "b" 2 |>.Add "a" 3).Keys
      = ["b", "a"]
    ∧ ((Map.NewMap (K := String) (V := Int)).SetDuplicateKeyStrategy
        KeepValueUpdateOrder |>.Add "a" 1 |>.Add "b" 2 |>.Add "a" 3).Values
      = [2, 1])
    ∧ (((Map.NewMap (K := String) (V := Int)).SetDuplicateKeyStrategy
        Ignore |>.Add "a" 1 |>.Add "b" 2 |>.Add "a" 3).Keys
      = ["a", "b"]
    ∧ ((Map.NewMap (K := String) (V := Int)).SetDuplicateKeyStrategy
        Ignore |>.Add "a" 1 |>.Add "b" 2 |>.Add "a" 3).Values
      = [1, 2]) := by
  decide

/-- C2: evaluating the code at a map reachable from the empty map by `Add`
under the out-of-range strategy 10: after `Add("a",1); Add("b",2); Add("a",3)`
the order index is `[a, b, a]` — the key `a` occurs twice in the order while
the hash table holds 2 entries, so order and hash table are not in bijection
(the empty `default:` clause of `Map.Add` leaves `alreadyExist` false and
appends a duplicate order entry). -/
theorem C2_bijection_broken_by_out_of_range_strategy :
    ((Map.NewMap (K := String) (V := Int)).SetDuplicateKeyStrategy 10
        |>.Add "a" 1 |>.Add "b" 2 |>.Add "a" 3).order = ["a", "b", "a"]
    ∧ ((Map.NewMap (K := String) (V := Int)).SetDuplicateKeyStrategy 10
        |>.Add "a" 1 |>.Add "b" 2 |>.Add "a" 3).order.count "a" = 2
    ∧ ((Map.NewMap (K := String) (V := Int)).SetDuplicateKeyStrategy 10
        |>.Add "a" 1 |>.Add "b" 2 |>.Add "a" 3).Len = 2 := by
  decide

/-- C3: evaluating the code at strategy 4 (out of range) on a map already
holding key `a`: `Add("a",3)` updates the value and leaves `Len` at 1 as the
claim states, but appends a second copy of `a` to the order index (order
becomes `[a, a]`), whereas under `UpdateValueKeepOrder` the order stays
`[a]` — so the out-of-range strategy does not behave as
`UpdateValueKeepOrder`. -/
theorem C3_out_of_range_strategy_not_keep_order :
    ((Map.NewMap (K := String) (V := Int)).SetDuplicateKeyStrategy 4
        |>.Add "a" 1).Has "a" = true
    ∧ ((Map.NewMap (K := String) (V := Int)).SetDuplicateKeyStrategy 4
        |>.Add "a" 1 |>.Add "a" 3).Get "a" = some 3
    ∧ ((Map.NewMap (K := String) (V := Int)).SetDuplicateKeyStrategy 4
        |>.Add "a" 1 |>.Add "a" 3).Len = 1
    ∧ ((Map.NewMap (K := String) (V := Int)).SetDuplicateKeyStrategy 4
        |>.Add "a" 1 |>.Add "a" 3).order = ["a", "a"]
    ∧ ((Map.NewMap (K := String) (V := Int)).SetDuplicateKeyStrategy
        UpdateValueKeepOrder |>.Add "a" 1 |>.Add "a" 3).order = ["a"] := by
  decide

/-- C5: `Pairs.Delete` removes exactly the entries whose key matches,
preserving the survivors' order, but `PairList.Delete` (src/pair_list.go:122)
filters with `p.Key == key`, keeping exactly the matching entries and
deleting every other entry: on `[(a,1), (b,2)]`, `Delete("a")` returns
`[(a,1)]` instead of the claimed `[(b,2)]`. -/
theorem C5_pairlist_delete_inverted :
    (∀ (ps : Pairs String Int) (k : String),
      (ps.Delete k).List = ps.List.filter (fun p => decide (p.Key ≠ k)))
    ∧ (∀ (pl : PairList String Int) (k : String),
      (pl.Delete k).List = pl.List.filter (fun p => decide (p.Key = k)))
    ∧ ((PairList.mk [⟨"a", (1 : Int)⟩, ⟨"b", 2⟩]).Delete "a").List
      = [⟨"a", 1⟩]
    ∧ ((Pairs.mk [⟨"a", (1 : Int)⟩, ⟨"b", 2⟩]).Delete "a").List
      = [⟨"b", 2⟩] := by
  refine ⟨fun ps k => rfl, fun pl k => rfl, by decide, by decide⟩

/-- Lookup after in-place insert finds the new value. -/
theorem assocLookup_assocInsert {K V : Type} [DecidableEq K]
    (l : List (K × V)) (k : K) (v : V) :
    assocLookup (assocInsert l k v) k = some v := by
  induction l with
  | nil => simp [assocInsert, assocLookup]
  | cons p rest ih =>
    by_cases h : p.1 = k
    · simp [assocInsert, assocLookup, h]
    · simp [assocInsert, assocLookup, h, ih]

/-- C6: `Set(k, v)` never consults the strategy: if `k` is present it
overwrites the value in place and leaves the whole order index unchanged; if
`k` is absent it appends `k` at the end of the order.  Concretely,
`Set("x",1); Set("y",2); Set("x",3)` on a fresh map yields order `[x, y]` and
values `[3, 2]` under every strategy value. -/
theorem C6_set_semantics {K V : Type} [DecidableEq K]
    (m : Map K V) (k : K) (v : V) :
    (m.Has k = true →
      (m.Set k v).order = m.order ∧ (m.Set k v).Get k = some v)
    ∧ (m.Has k = false →
      (m.Set k v).order = m.order ++ [k] ∧ (m.Set k v).Get k = some v)
    ∧ (∀ s : Nat,
      ((Map.NewMap (K := String) (V := Int)).SetDuplicateKeyStrategy s
          |>.Set "x" 1 |>.Set "y" 2 |>.Set "x" 3).Keys = ["x", "y"]
      ∧ ((Map.NewMap (K := String) (V := Int)).SetDuplicateKeyStrategy s
          |>.Set "x" 1 |>.Set "y" 2 |>.Set "x" 3).Values = [3, 2]) := by
  refine ⟨fun h => ⟨?_, ?_⟩, fun h => ⟨?_, ?_⟩, fun s => ⟨rfl, rfl⟩⟩
  · simp [Map.Set, Map.set, h]
  · simp [Map.Set, Map.set, h, Map.Get, assocLookup_assocInsert]
  · simp [Map.Set, Map.set, h]
  · simp [Map.Set, Map.set, h, Map.Get, assocLookup_assocInsert]

/-- C6 witness: applying the theorem on a concrete one-entry map for the
present-key case and on its absent key for the append case. -/
theorem C6_set_semantics_witness :
    ((Map.mk ["x"] (some [("x", (1 : Int))]) 0).Set "x" 5).order = ["x"]
    ∧ ((Map.mk ["x"] (some [("x", (1 : Int))]) 0).Set "z" 7).order
      = ["x", "z"] :=
  ⟨((C6_set_semantics (Map.mk ["x"] (some [("x", 1)]) 0) "x" 5).1
      (by decide)).1,
   ((C6_set_semantics (Map.mk ["x"] (some [("x", 1)]) 0) "z" 7).2.1
      (by decide)).1⟩

/-- The input bytes of the duplicate-preserving round trip. -/
def c4Input : Str :=
  ['{', '"', 'a', '"', ':', '1', ',', '"', 'b', '"', ':', '2', ',',
   '"', 'a', '"', ':', '3', '}']

/-- C4: decoding the bytes of a three-member object with a duplicate key in
pair-sequence mode yields the pair sequence with all three entries in source
order, and the public encode entry (`MarshalJSON` followed by the standard
marshal compaction) reproduces exactly the original byte sequence. -/
theorem C4_duplicate_roundtrip :
    JSONUnmarshal c4Input ⟨true, 0⟩
      = .ok (.jpairs ⟨[⟨['a'], .jnum 1⟩, ⟨['b'], .jnum 2⟩,
          ⟨['a'], .jnum 3⟩]⟩)
    ∧ jsonMarshalValue
        (.jpairs ⟨[⟨['a'], .jnum 1⟩, ⟨['b'], .jnum 2⟩, ⟨['a'], .jnum 3⟩]⟩)
      = .ok c4Input := by
  refine ⟨rfl, ?_⟩
  simp only [jsonMarshalValue, marshalObjectPairs, isString, encPairChunks,
    encValue]
  rfl

/-- C7: whenever the input contains one complete top-level JSON value (a
successful `parseNext` on the whole input) followed by any non-whitespace
content, the top-level decode fails with a syntax error naming the
condition and carrying the byte offset one past the first trailing byte,
and returns no value; when only whitespace follows, the decode succeeds
with the parsed value. -/
theorem C7_trailing_content (opts : DecodeOptions) (s : Str) (v : JsonValue)
    (rest : Str)
    (h : parseNext opts (decodeFuel s) s = .ok (v, rest)) :
    (skipWs rest ≠ [] →
      JSONUnmarshal s opts
        = .error (.syntaxErr "invalid character after top-level value"
            (s.length - (skipWs rest).length + 1)))
    ∧ (skipWs rest = [] → JSONUnmarshal s opts = .ok v) := by
  constructor
  · intro hne
    have hempty : (skipWs rest).isEmpty = false := by
      cases hsw : skipWs rest with
      | nil => exact absurd hsw hne
      | cons a l => rfl
    simp [JSONUnmarshal, decode, h, hempty]
  · intro he
    simp [JSONUnmarshal, decode, h, he]

/-- C7 witness: a scalar followed by a stray character fails with the
trailing-content syntax error at offset 3, and the same scalar followed
only by a space decodes to the value. -/
theorem C7_trailing_content_witness :
    JSONUnmarshal ['1', ' ', 'x'] ⟨false, 0⟩
      = .error (.syntaxErr "invalid character after top-level value" 3)
    ∧ JSONUnmarshal ['1', ' '] ⟨false, 0⟩ = .ok (.jnum 1) :=
  ⟨(C7_trailing_content ⟨false, 0⟩ ['1', ' ', 'x'] (.jnum 1) [' ', 'x']
      rfl).1 (by decide),
   (C7_trailing_content ⟨false, 0⟩ ['1', ' '] (.jnum 1) [' '] rfl).2
      (by decide)⟩

/-- C8 counterexample: for the named key type `type myString string` —
string-shaped in the claim's sense, as `underlyingIsString` confirms —
encoding a map or pair sequence DOES fail with the unsupported-type error,
because `marshalObject` checks `isString`, which demands identity with the
built-in string type. -/
theorem C8_counterexample :
    underlyingIsString (some ⟨"myString", GoKind.stringKind⟩) = true
    ∧ marshalObjectMap (some ⟨"myString", GoKind.stringKind⟩) Map.NewMap
      = .error .unsupportedTypeError
    ∧ marshalObjectPairs (some ⟨"myString", GoKind.stringKind⟩)
        Pairs.NewPairs
      = .error .unsupportedTypeError :=
  ⟨rfl, rfl, rfl⟩

/-- C8 (amended): encoding a Map or pair sequence fails with the
unsupported-type error, producing no output bytes, exactly when the key
type is not the built-in `string` type itself; named types whose underlying
representation is string are rejected like every other non-`string` type. -/
theorem C8_string_key_exact (kt : Option GoType) (m : Map Str JsonValue)
    (ps : Pairs Str JsonValue) :
    (marshalObjectMap kt m = .error .unsupportedTypeError
      ↔ kt ≠ some goStringType)
    ∧ (marshalObjectPairs kt ps = .error .unsupportedTypeError
      ↔ kt ≠ some goStringType)
    ∧ ((∃ bs, marshalObjectMap kt m = .ok bs) ↔ kt = some goStringType)
    ∧ ((∃ bs, marshalObjectPairs kt ps = .ok bs) ↔ kt = some goStringType) := by
  by_cases h : kt = some goStringType
  · subst h
    simp [marshalObjectMap, marshalObjectPairs, isString]
  · simp [marshalObjectMap, marshalObjectPairs, isString, h]

/-- Parsing an object body into an existing map equals collecting the
member sequence and replaying it through `Add` starting from that map. -/
theorem parseIntoObjectMap_eq_members (opts : DecodeOptions) :
    ∀ (fuel : Nat) (m : Map Str JsonValue) (s : Str),
    parseIntoObjectMap opts fuel m s
      = (parseMembers opts fuel s).map
          (fun p => (p.1.foldl (fun acc kv => acc.Add kv.Key kv.Value) m,
            p.2)) := by
  intro fuel
  induction fuel with
  | zero => intro m s; rfl
  | succ f ih =>
    intro m s
    cases hnt : nextToken s with
    | none => simp [parseIntoObjectMap, parseMembers, hnt, Except.map]
    | some tr =>
      obtain ⟨tok, r⟩ := tr
      cases tok with
      | lbrace => simp [parseIntoObjectMap, parseMembers, hnt, Except.map]
      | rbrace => simp [parseIntoObjectMap, parseMembers, hnt, Except.map]
      | lbrack => simp [parseIntoObjectMap, parseMembers, hnt, Except.map]
      | rbrack => simp [parseIntoObjectMap, parseMembers, hnt, Except.map]
      | tnum n => simp [parseIntoObjectMap, parseMembers, hnt, Except.map]
      | tbool b => simp [parseIntoObjectMap, parseMembers, hnt, Except.map]
      | tnull => simp [parseIntoObjectMap, parseMembers, hnt, Except.map]
      | tstr k =>
        cases hp : parseNext opts f r with
        | error e =>
          simp [parseIntoObjectMap, parseMembers, hnt, hp, Except.map]
        | ok vr =>
          obtain ⟨v, r2⟩ := vr
          simp only [parseIntoObjectMap, parseMembers, hnt, hp]
          rw [ih (m.Add k v) r2]
          cases hm : parseMembers opts f r2 with
          | error e => simp [hm, Except.map]
          | ok msr => simp [hm, Except.map]

/-- Parsing an object body into an existing pair sequence appends the
member sequence after the existing entries. -/
theorem parseIntoObjectPairs_eq_members (opts : DecodeOptions) :
    ∀ (fuel : Nat) (ps : Pairs Str JsonValue) (s : Str),
    parseIntoObjectPairs opts fuel ps s
      = (parseMembers opts fuel s).map (fun p => (⟨ps.List ++ p.1⟩, p.2)) := by
  intro fuel
  induction fuel with
  | zero => intro ps s; rfl
  | succ f ih =>
    intro ps s
    cases hnt : nextToken s with
    | none => simp [parseIntoObjectPairs, parseMembers, hnt, Except.map]
    | some tr =>
      obtain ⟨tok, r⟩ := tr
      cases tok with
      | lbrace => simp [parseIntoObjectPairs, parseMembers, hnt, Except.map]
      | rbrace => simp [parseIntoObjectPairs, parseMembers, hnt, Except.map]
      | lbrack => simp [parseIntoObjectPairs, parseMembers, hnt, Except.map]
      | rbrack => simp [parseIntoObjectPairs, parseMembers, hnt, Except.map]
      | tnum n => simp [parseIntoObjectPairs, parseMembers, hnt, Except.map]
      | tbool b => simp [parseIntoObjectPairs, parseMembers, hnt, Except.map]
      | tnull => simp [parseIntoObjectPairs, parseMembers, hnt, Except.map]
      | tstr k =>
        cases hp : parseNext opts f r with
        | error e =>
          simp [parseIntoObjectPairs, parseMembers, hnt, hp, Except.map]
        | ok vr =>
          obtain ⟨v, r2⟩ := vr
          simp only [parseIntoObjectPairs, parseMembers, hnt, hp]
          rw [ih (ps.Add k v) r2]
          cases hm : parseMembers opts f r2 with
          | error e => simp [hm, Except.map]
          | ok msr => simp [hm, Except.map, Pairs.Add, List.append_assoc]

/-- C9: the object-body parser inserts the decoded members into the EXISTING
container — for a map by replaying them through `Add` (so prior entries
survive subject to the duplicate-key behavior), for a pair sequence by
appending them after the prior entries — whereas `List.UnmarshalJSON`
ignores the receiver's existing elements entirely (any two receivers give
the same result, the decoded array's elements alone). -/
theorem C9_unmarshal_into_existing :
    (∀ (opts : DecodeOptions) (fuel : Nat) (m : Map Str JsonValue) (s : Str),
      parseIntoObjectMap opts fuel m s
        = (parseMembers opts fuel s).map
            (fun p => (p.1.foldl (fun acc kv => acc.Add kv.Key kv.Value) m,
              p.2)))
    ∧ (∀ (opts : DecodeOptions) (fuel : Nat) (ps : Pairs Str JsonValue)
        (s : Str),
      parseIntoObjectPairs opts fuel ps s
        = (parseMembers opts fuel s).map (fun p => (⟨ps.List ++ p.1⟩, p.2)))
    ∧ (∀ (l1 l2 : GoList JsonValue) (s : Str),
      l1.UnmarshalJSON s = l2.UnmarshalJSON s) :=
  ⟨fun opts fuel m s => parseIntoObjectMap_eq_members opts fuel m s,
   fun opts fuel ps s => parseIntoObjectPairs_eq_members opts fuel ps s,
   fun _ _ _ => rfl⟩

/-- C10: every embedded operation on a zero-value map (nil order, nil hash
table) is total: lookups report absence via `none`/`false`/zero value,
`Delete` leaves the map unchanged, `Len`/`Keys`/`Values`/`Pairs` are
empty, and the first `Set` or `Add` initializes the hash table (the `inner`
field becomes `some` of a one-binding table). -/
theorem C10_zero_value_map_total {K V : Type} [DecidableEq K]
    [Inhabited K] [Inhabited V] (k : K) (v : V) :
    (Map.NewMap (K := K) (V := V)).Get k = none
    ∧ (Map.NewMap (K := K) (V := V)).Has k = false
    ∧ (Map.NewMap (K := K) (V := V)).GetOrZeroValue k = default
    ∧ (Map.NewMap (K := K) (V := V)).Delete k = Map.NewMap
    ∧ (Map.NewMap (K := K) (V := V)).Len = 0
    ∧ (Map.NewMap (K := K) (V := V)).Keys = []
    ∧ (Map.NewMap (K := K) (V := V)).Values = []
    ∧ (Map.Pairs (Map.NewMap (K := K) (V := V))).List = []
    ∧ ((Map.NewMap (K := K) (V := V)).Set k v).inner = some [(k, v)]
    ∧ ((Map.NewMap (K := K) (V := V)).Set k v).order = [k]
    ∧ ((Map.NewMap (K := K) (V := V)).Add k v).inner = some [(k, v)] := by
  refine ⟨rfl, rfl, rfl, rfl, rfl, rfl, rfl, rfl, rfl, rfl, rfl⟩

end Geko
